import Mathlib

/-!
Verification of the scheduling, polling and delivery engine of
`autobot.py` (a multi-channel post scheduler).

The Python source is shallowly embedded: pure computations become Lean
functions over `ℚ`/`ℤ`/`List`, the SQLite-backed post store becomes a
`List` of records with the SQL queries modelled as the corresponding
filter/sort/take operations, and the bot's mutable state becomes an
explicit state-machine step relation.  Naive datetimes are modelled as
minute counts (`ℚ` for the planner, `ℤ` for the time parser); Python
float arithmetic on durations is modelled with exact rationals, and
Python strings are modelled as `List Char` (ASCII fragment: `lower`
and `strip` are modelled on the ASCII range, and `int()` without
underscore separators, which covers every input form the parser
accepts).
-/

namespace AutoBot

/-! ## Schedule planner

`schedule_bulk_posts` (SPACED mode) and `schedule_batch_posts`
(GROUPED mode) from `autobot.py`.  Each takes the collected posts, the
session's timing parameters and the UTC start instant (in minutes) and
returns every post paired with its scheduled instant, mirroring the
`scheduled_info` list the Python code builds.  The inline `interval` /
`num_batches` / `batch_interval` computations of the Python bodies are
hoisted into named definitions so theorems can refer to them. -/

/-- `interval = duration_minutes / num_posts if num_posts > 1 else 0`. -/
def bulk_interval (durationMinutes : ℚ) (numPosts : ℕ) : ℚ :=
  if numPosts > 1 then durationMinutes / (numPosts : ℚ) else 0

/-- `num_batches = (num_posts + batch_size - 1) // batch_size`. -/
def num_batches (numPosts batchSize : ℕ) : ℕ :=
  (numPosts + batchSize - 1) / batchSize

/-- `batch_interval = duration_minutes / num_batches if num_batches > 1 else 0`. -/
def batch_interval (durationMinutes : ℚ) (numBatches : ℕ) : ℚ :=
  if numBatches > 1 then durationMinutes / (numBatches : ℚ) else 0

/-- SPACED mode: post `i` (0-indexed) is scheduled at
`start_utc + timedelta(minutes=interval * i)`. -/
def schedule_bulk_posts {α : Type} (posts : List α) (durationMinutes startUtc : ℚ) :
    List (α × ℚ) :=
  let interval := bulk_interval durationMinutes posts.length
  posts.enum.map (fun ip => (ip.2, startUtc + interval * (ip.1 : ℚ)))

/-- GROUPED mode: post `i` is scheduled at
`start_utc + timedelta(minutes=batch_interval * (i // batch_size), seconds=(i % batch_size) * 2)`
(2 seconds = 1/30 minute per unit of intra-batch stagger). -/
def schedule_batch_posts {α : Type} (posts : List α) (durationMinutes : ℚ)
    (batchSize : ℕ) (startUtc : ℚ) : List (α × ℚ) :=
  let batchInterval := batch_interval durationMinutes (num_batches posts.length batchSize)
  posts.enum.map (fun ip =>
    (ip.2, startUtc + batchInterval * ((ip.1 / batchSize : ℕ) : ℚ)
      + (2 * ((ip.1 % batchSize : ℕ) : ℚ)) / 60))

/-! ## Delivery dispatcher: per-destination send with retry

`send_to_channel` from `send_to_all_channels`: `max_retries = 5`
attempts; a `(TimedOut, NetworkError)` failure (retryable) waits
`(attempt + 1) * 3` seconds and retries while `attempt < max_retries - 1`,
otherwise returns failure; any other `TelegramError` (terminal) returns
failure immediately; success returns immediately.  The per-attempt
outcome is supplied by an oracle `f : ℕ → SendOutcome` (attempt index
to outcome), and the model records the outcome, the number of attempts
made and the list of backoff waits (in seconds) actually slept. -/

inductive SendOutcome : Type
  | success : SendOutcome
  | retryable : SendOutcome
  | terminal : SendOutcome
deriving DecidableEq

structure SendRes : Type where
  ok : Bool
  attempts : ℕ
  waits : List ℕ
deriving DecidableEq

/-- The retry loop `for attempt in range(max_retries)`, with `fuel`
the number of loop iterations still available (initially 5) and
`attempt` the current 0-based attempt index. -/
def sendGo (f : ℕ → SendOutcome) : ℕ → ℕ → List ℕ → SendRes
  | 0, attempt, ws => ⟨false, attempt, ws⟩
  | fuel + 1, attempt, ws =>
    match f attempt with
    | .success => ⟨true, attempt + 1, ws⟩
    | .terminal => ⟨false, attempt + 1, ws⟩
    | .retryable =>
        if fuel = 0 then ⟨false, attempt + 1, ws⟩
        else sendGo f fuel (attempt + 1) (ws ++ [(attempt + 1) * 3])

/-- `send_to_channel(channel_id, max_retries=5)` with the per-attempt
outcomes abstracted into the oracle `f`. -/
def send_to_channel (f : ℕ → SendOutcome) : SendRes :=
  sendGo f 5 0 []

/-! ## Post store

One row of the `posts` table, restricted to the columns the claims are
about.  `scheduledTime` and `postedAt` are naive-UTC instants in
minutes (the ISO-8601 strings the code stores compare exactly like the
instants they denote). -/

structure StoredPost : Type where
  id : ℕ
  posted : Bool
  scheduledTime : ℤ
  postedAt : Option ℤ
  totalChannels : ℕ
  successfulPosts : ℕ
deriving DecidableEq, Inhabited

/-- The WHERE clause of the due query:
`scheduled_time <= now AND posted = 0`. -/
def duePred (now : ℤ) (p : StoredPost) : Bool :=
  decide (p.scheduledTime ≤ now) && !p.posted

/-- The poller's due query from `process_due_posts`:
`SELECT * FROM posts WHERE scheduled_time <= ? AND posted = 0
 ORDER BY scheduled_time LIMIT 200`. -/
def process_due_query (posts : List StoredPost) (now : ℤ) : List StoredPost :=
  ((posts.filter (duePred now)).mergeSort
    (fun a b => decide (a.scheduledTime ≤ b.scheduledTime))).take 200

/-- The WHERE clause of the cleanup delete:
`posted = 1 AND posted_at < cutoff` (a NULL `posted_at` never
satisfies the SQL comparison). -/
def purgePred (cutoff : ℤ) (p : StoredPost) : Bool :=
  p.posted &&
    (match p.postedAt with
      | some t => decide (t < cutoff)
      | none => false)

/-- `cleanup_posted_content`: computes
`cutoff = utcnow() - timedelta(minutes=auto_cleanup_minutes)` and
deletes the rows matching `purgePred` (the code skips the DELETE when
no row matches, which leaves the same store). -/
def cleanup_posted_content (now retentionMinutes : ℤ)
    (posts : List StoredPost) : List StoredPost :=
  posts.filter (fun p => !purgePred (now - retentionMinutes) p)

/-! ## Bot state machine

The mutable state touched by the claims: the `channels` table (soft
deletes only) and the `posts` table.  `add_channel`, `remove_channel`,
`schedule_post` and the store update at the end of
`send_to_all_channels` become steps of a transition relation;
`Reachable` is any interleaving of them from the empty database. -/

structure Channel : Type where
  cid : ℤ
  active : Bool
deriving DecidableEq

structure BotState : Type where
  channels : List Channel
  posts : List StoredPost
deriving DecidableEq

/-- `self.channel_ids` as reloaded by `load_channels()`:
the active channels. -/
def activeChannelCount (s : BotState) : ℕ :=
  (s.channels.filter (fun c => c.active)).length

/-- `add_channel`: INSERT a new active row, or on the unique-constraint
violation re-activate the existing row. -/
def add_channel (s : BotState) (cid : ℤ) : BotState :=
  if s.channels.any (fun c => decide (c.cid = cid)) then
    { s with channels :=
        s.channels.map (fun c => if c.cid = cid then { c with active := true } else c) }
  else
    { s with channels := s.channels ++ [⟨cid, true⟩] }

/-- `remove_channel`: soft delete, `UPDATE channels SET active = 0`. -/
def remove_channel (s : BotState) (cid : ℤ) : BotState :=
  { s with channels :=
      s.channels.map (fun c => if c.cid = cid then { c with active := false } else c) }

/-- `schedule_post`: INSERT a pending post whose `total_channels` is
the active-channel count snapshotted now (`len(self.channel_ids)`). -/
def schedule_post (s : BotState) (schedTime : ℤ) : BotState :=
  let newPost : StoredPost :=
    { id := s.posts.length, posted := false, scheduledTime := schedTime,
      postedAt := none, totalChannels := activeChannelCount s,
      successfulPosts := 0 }
  { s with posts := s.posts ++ [newPost] }

/-- The store update at the end of `send_to_all_channels`:
`UPDATE posts SET posted = 1, posted_at = ?, successful_posts = ? WHERE id = ?`.
`results` is the list of per-destination success booleans of the
fan-out over the live active channels; `successful` is their count. -/
def deliver_post (s : BotState) (idx : ℕ) (results : List Bool) (now : ℤ) : BotState :=
  let updated : StoredPost :=
    { s.posts.getD idx default with
        posted := true, postedAt := some now,
        successfulPosts := results.count true }
  { s with posts := s.posts.set idx updated }

/-- One interleaving step: channel add/remove, post creation, or a
delivery fan-out.  A delivery targets an existing still-pending post
(the poller only hands over rows with `posted = 0`) and produces one
boolean outcome per live active channel. -/
inductive Step : BotState → BotState → Prop
  | addChannel (s : BotState) (cid : ℤ) : Step s (add_channel s cid)
  | removeChannel (s : BotState) (cid : ℤ) : Step s (remove_channel s cid)
  | schedulePost (s : BotState) (t : ℤ) : Step s (schedule_post s t)
  | deliver (s : BotState) (idx : ℕ) (results : List Bool) (now : ℤ)
      (hidx : idx < s.posts.length)
      (hpending : (s.posts.getD idx default).posted = false)
      (hres : results.length = activeChannelCount s) :
      Step s (deliver_post s idx results now)

/-- States reachable from the empty database. -/
inductive Reachable : BotState → Prop
  | init : Reachable ⟨[], []⟩
  | step {s t : BotState} : Reachable s → Step s t → Reachable t

/-- The invariant claimed by the spec: a delivered post has
`posted_at` set and `successful_posts ≤ total_channels`
(the creation-time snapshot). -/
def c8ClaimedInvariant (s : BotState) : Prop :=
  ∀ p ∈ s.posts, p.posted = true →
    p.postedAt.isSome = true ∧ p.successfulPosts ≤ p.totalChannels

/-! ## Time resolver

`parse_user_time_input` and `parse_hour`, over Python strings modelled
as `List Char` and naive IST datetimes modelled as minutes since the
epoch (`ℤ`); `.date()` truncation is the floor to a multiple of 1440.
Python exceptions are the error side of `Except`: `ValueError` from
`int()` and the final `raise`, `IndexError` from out-of-range
indexing. -/

inductive PyErr : Type
  | valueError : PyErr
  | indexError : PyErr
deriving DecidableEq

/-- ASCII decimal digit (the `\d` of `re.findall` / `int()`). -/
def isDigitChar (c : Char) : Bool :=
  decide (48 ≤ c.toNat) && decide (c.toNat ≤ 57)

/-- ASCII whitespace as stripped by Python `str.strip()`. -/
def isPySpace (c : Char) : Bool :=
  decide (c.toNat = 32) || decide (c.toNat = 9) || decide (c.toNat = 10)
    || decide (c.toNat = 13) || decide (c.toNat = 11) || decide (c.toNat = 12)

/-- Python `str.strip()`. -/
def pyStrip (s : List Char) : List Char :=
  ((s.dropWhile isPySpace).reverse.dropWhile isPySpace).reverse

/-- Python `str.lower()` on one ASCII character. -/
def pyLowerChar (c : Char) : Char :=
  if 65 ≤ c.toNat ∧ c.toNat ≤ 90 then Char.ofNat (c.toNat + 32) else c

/-- Python `str.lower()`. -/
def pyLower (s : List Char) : List Char :=
  s.map pyLowerChar

/-- Does `s` start with `pat`? (`str.startswith`.) -/
def startsWithL : List Char → List Char → Bool
  | [], _ => true
  | _ :: _, [] => false
  | p :: ps, c :: cs => p == c && startsWithL ps cs

/-- Substring test (`pat in s`). -/
def containsSub (pat : List Char) : List Char → Bool
  | [] => startsWithL pat []
  | c :: cs => startsWithL pat (c :: cs) || containsSub pat cs

/-- Python `str.replace(pat, '')` for a nonempty `pat`: remove every
(leftmost, non-overlapping) occurrence. -/
def replaceAll (pat : List Char) : List Char → List Char
  | [] => []
  | c :: cs =>
    if startsWithL pat (c :: cs) = true ∧ pat ≠ [] then
      replaceAll pat ((c :: cs).drop pat.length)
    else
      c :: replaceAll pat cs
termination_by s => s.length
decreasing_by
  · rename_i h
    have hp : 0 < pat.length := by
      cases pat with
      | nil => exact absurd rfl h.2
      | cons a as => exact Nat.succ_pos _
    simp only [List.length_drop, List.length_cons]
    omega
  · simp only [List.length_cons]
    omega

/-- Value of a digit string (the number `int()` returns on an
all-digit string, also the value of a `re.findall(r'\d+')` run). -/
def digitVal (s : List Char) : ℕ :=
  s.foldl (fun acc c => acc * 10 + (c.toNat - 48)) 0

/-- `int(s)` after the implicit strip: optional sign, at least one
digit, nothing else — otherwise `ValueError`. -/
def pyIntCore : List Char → Except PyErr ℤ
  | [] => .error .valueError
  | c :: cs =>
    if c = '+' then
      if cs ≠ [] ∧ cs.all isDigitChar then .ok (digitVal cs) else .error .valueError
    else if c = '-' then
      if cs ≠ [] ∧ cs.all isDigitChar then .ok (-(digitVal cs : ℤ)) else .error .valueError
    else if (c :: cs).all isDigitChar then .ok (digitVal (c :: cs))
    else .error .valueError

/-- Python `int(s)` on a str: strip whitespace, optional sign, at
least one digit, nothing else — otherwise `ValueError`. -/
def pyInt (s : List Char) : Except PyErr ℤ :=
  pyIntCore (pyStrip s)

/-- The maximal digit runs of `s`, left to right
(`re.findall(r'\d+', s)`); `acc` is the current run, reversed. -/
def digitRunsAux : List Char → List Char → List (List Char)
  | [], acc => if acc = [] then [] else [acc.reverse]
  | c :: cs, acc =>
    if isDigitChar c then digitRunsAux cs (c :: acc)
    else if acc = [] then digitRunsAux cs []
    else acc.reverse :: digitRunsAux cs []

def digitRuns (s : List Char) : List (List Char) :=
  digitRunsAux s []

/-- `parse_hour` from `autobot.py`: on an `am`/`pm` input take the
first digit run (raising `IndexError` when there is none) and apply
the 12-hour adjustments; otherwise on a `:` input take the integer
before the first `:`; otherwise the whole string as an integer. -/
def parse_hour (s : List Char) : Except PyErr ℤ :=
  let text := pyLower (pyStrip s)
  if containsSub ['a', 'm'] text || containsSub ['p', 'm'] text then
    match digitRuns text with
    | [] => .error .indexError
    | r :: _ =>
      let hour : ℤ := (digitVal r : ℤ)
      let hour := if containsSub ['p', 'm'] text = true ∧ hour ≠ 12 then hour + 12 else hour
      let hour := if containsSub ['a', 'm'] text = true ∧ hour = 12 then 0 else hour
      .ok hour
  else if text.contains ':' then
    pyInt (text.takeWhile (fun c => c != ':'))
  else
    pyInt text

/-- Number of days in a month of a given year (proleptic Gregorian,
as Python's `datetime`). -/
def daysInMonth (y m : ℤ) : ℤ :=
  if m = 2 then
    if (y % 4 = 0 ∧ y % 100 ≠ 0) ∨ y % 400 = 0 then 29 else 28
  else if m = 4 ∨ m = 6 ∨ m = 9 ∨ m = 11 then 30
  else 31

/-- Days since 1970-01-01 of a civil date (proleptic Gregorian). -/
def daysFromCivil (y m d : ℤ) : ℤ :=
  let y2 := if m ≤ 2 then y - 1 else y
  let era := y2.fdiv 400
  let yoe := y2 - era * 400
  let doy := (153 * (if m > 2 then m - 3 else m + 9) + 2) / 5 + d - 1
  let doe := yoe * 365 + yoe / 4 - yoe / 100 + doy
  era * 146097 + doe - 719468

/-- Civil date (year, month, day) of a day count since 1970-01-01. -/
def civilFromDays (z : ℤ) : ℤ × ℤ × ℤ :=
  let z2 := z + 719468
  let era := z2.fdiv 146097
  let doe := z2 - era * 146097
  let yoe := (doe - doe / 1460 + doe / 36524 - doe / 146096) / 365
  let y := yoe + era * 400
  let doy := doe - (365 * yoe + yoe / 4 - yoe / 100)
  let mp := (5 * doy + 2) / 153
  let d := doy - (153 * mp + 2) / 5 + 1
  let m := if mp < 10 then mp + 3 else mp - 9
  (if m ≤ 2 then y + 1 else y, m, d)

/-- Minutes since the epoch of a civil datetime. -/
def minutesOfCivil (y mo d h mi : ℤ) : ℤ :=
  daysFromCivil y mo d * 1440 + h * 60 + mi

/-- The year of an instant (for `dt.replace(year=now_ist.year)`). -/
def yearOf (t : ℤ) : ℤ :=
  (civilFromDays (t.fdiv 1440)).1

/-- Maximal leading digit run and the remaining characters. -/
def takeDigits (s : List Char) : List Char × List Char :=
  (s.takeWhile isDigitChar, s.dropWhile isDigitChar)

/-- `datetime.strptime(text, '%Y-%m-%d %H:%M')`: 4-digit year,
1–2-digit month/day/hour/minute fields in range, one-or-more
whitespace between date and time, nothing left over, and the day
valid for the month and year. -/
def parseYmdHM (s : List Char) : Option (ℤ × ℤ × ℤ × ℤ × ℤ) :=
  let (ys, r1) := takeDigits s
  if ys.length = 4 then
    match r1 with
    | '-' :: r2 =>
      let (ms, r3) := takeDigits r2
      if 1 ≤ ms.length ∧ ms.length ≤ 2 ∧ 1 ≤ digitVal ms ∧ digitVal ms ≤ 12 then
        match r3 with
        | '-' :: r4 =>
          let (ds, r5) := takeDigits r4
          if 1 ≤ ds.length ∧ ds.length ≤ 2 ∧ 1 ≤ digitVal ds ∧ digitVal ds ≤ 31 then
            match r5 with
            | c :: r6 =>
              if isPySpace c then
                let r7 := r6.dropWhile isPySpace
                let (hs, r8) := takeDigits r7
                if 1 ≤ hs.length ∧ hs.length ≤ 2 ∧ digitVal hs ≤ 23 then
                  match r8 with
                  | ':' :: r9 =>
                    let (mis, r10) := takeDigits r9
                    if 1 ≤ mis.length ∧ mis.length ≤ 2 ∧ digitVal mis ≤ 59
                        ∧ r10 = []
                        ∧ (digitVal ds : ℤ) ≤ daysInMonth (digitVal ys) (digitVal ms) then
                      some ((digitVal ys : ℤ), (digitVal ms : ℤ), (digitVal ds : ℤ),
                        (digitVal hs : ℤ), (digitVal mis : ℤ))
                    else none
                  | _ => none
                else none
              else none
            | [] => none
          else none
        | _ => none
      else none
    | _ => none
  else none

/-- `datetime.strptime(text, '%m/%d %H:%M')`: like `parseYmdHM`
without the year; the day is validated against `strptime`'s default
year 1900 (so `02/29` is rejected). -/
def parseMdHM (s : List Char) : Option (ℤ × ℤ × ℤ × ℤ) :=
  let (ms, r1) := takeDigits s
  if 1 ≤ ms.length ∧ ms.length ≤ 2 ∧ 1 ≤ digitVal ms ∧ digitVal ms ≤ 12 then
    match r1 with
    | '/' :: r2 =>
      let (ds, r3) := takeDigits r2
      if 1 ≤ ds.length ∧ ds.length ≤ 2 ∧ 1 ≤ digitVal ds ∧ digitVal ds ≤ 31 then
        match r3 with
        | c :: r4 =>
          if isPySpace c then
            let r5 := r4.dropWhile isPySpace
            let (hs, r6) := takeDigits r5
            if 1 ≤ hs.length ∧ hs.length ≤ 2 ∧ digitVal hs ≤ 23 then
              match r6 with
              | ':' :: r7 =>
                let (mis, r8) := takeDigits r7
                if 1 ≤ mis.length ∧ mis.length ≤ 2 ∧ digitVal mis ≤ 59
                    ∧ r8 = []
                    ∧ (digitVal ds : ℤ) ≤ daysInMonth 1900 (digitVal ms) then
                  some ((digitVal ms : ℤ), (digitVal ds : ℤ),
                    (digitVal hs : ℤ), (digitVal mis : ℤ))
                else none
              | _ => none
            else none
          else none
        | [] => none
      else none
    | _ => none
  else none

/-- The two `datetime.strptime` attempts at the end of
`parse_user_time_input` (their exceptions are swallowed by the bare
`except`), then the final `raise ValueError("Invalid format! ...")`.
The `%m/%d %H:%M` result gets `dt.replace(year=now_ist.year)`. -/
def parseExactFormats (nowIst : ℤ) (text : List Char) : Except PyErr ℤ :=
  match parseYmdHM text with
  | some (y, m, d, h, mi) => .ok (minutesOfCivil y m d h mi)
  | none =>
    match parseMdHM text with
    | some (m, d, h, mi) => .ok (minutesOfCivil (yearOf nowIst) m d h mi)
    | none => .error .valueError

/-- `parse_user_time_input` from `autobot.py`.  `nowIst` is
`get_ist_now()` in minutes.  Mirrors the Python branch order:
`'now'`; duration suffixes `m`/`h`/`d` (where `text[-1]` on an empty
string raises `IndexError`); `tomorrow [...]`; `today [...]`; the two
exact formats; the final `ValueError`. -/
def parse_user_time_input (nowIst : ℤ) (input : List Char) : Except PyErr ℤ :=
  let text := pyLower (pyStrip input)
  if text = ['n', 'o', 'w'] then .ok nowIst
  else
    match text.getLast? with
    | none => .error .indexError
    | some lastc =>
      if lastc = 'm' ∨ lastc = 'h' ∨ lastc = 'd' then
        match pyInt text.dropLast with
        | .error e => .error e
        | .ok n =>
          if lastc = 'm' then .ok (nowIst + n)
          else if lastc = 'h' then .ok (nowIst + 60 * n)
          else .ok (nowIst + 1440 * n)
      else if startsWithL ['t', 'o', 'm', 'o', 'r', 'r', 'o', 'w'] text then
        if pyStrip (replaceAll ['t', 'o', 'm', 'o', 'r', 'r', 'o', 'w'] text) ≠ [] then
          match parse_hour (pyStrip (replaceAll ['t', 'o', 'm', 'o', 'r', 'r', 'o', 'w'] text)) with
          | .error e => .error e
          | .ok hour => .ok (1440 * (nowIst + 1440).fdiv 1440 + 60 * hour)
        else .ok (nowIst + 1440)
      else if startsWithL ['t', 'o', 'd', 'a', 'y'] text then
        if pyStrip (replaceAll ['t', 'o', 'd', 'a', 'y'] text) ≠ [] then
          match parse_hour (pyStrip (replaceAll ['t', 'o', 'd', 'a', 'y'] text)) with
          | .error e => .error e
          | .ok hour => .ok (1440 * nowIst.fdiv 1440 + 60 * hour)
        else parseExactFormats nowIst text
      else parseExactFormats nowIst text

/-! ## Theorems: schedule planner (C1–C4) -/

/-- Extracting the scheduled instants of an index-determined plan:
mapping `Prod.snd` over `posts.enum.map (fun ip => (ip.2, g ip.1))`
yields `g` applied over `range posts.length`. -/
theorem map_snd_enum_map {α β : Type} (posts : List α) (g : ℕ → β) :
    (posts.enum.map (fun ip => (ip.2, g ip.1))).map Prod.snd
      = (List.range posts.length).map g := by
  rw [List.enum_eq_zip_range, List.map_map]
  have hfg : (Prod.snd ∘ fun ip : ℕ × α => (ip.2, g ip.1)) = g ∘ Prod.fst := rfl
  rw [hfg, ← List.map_map, List.map_fst_zip _ _ (by simp)]

/-- The instants produced by SPACED planning, in closed form. -/
theorem bulk_times {α : Type} (posts : List α) (D s : ℚ) :
    (schedule_bulk_posts posts D s).map Prod.snd
      = (List.range posts.length).map
          (fun (i : ℕ) => s + bulk_interval D posts.length * (i : ℚ)) := by
  simp only [schedule_bulk_posts]
  exact map_snd_enum_map posts
    (fun (i : ℕ) => s + bulk_interval D posts.length * (i : ℚ))

/-- The instants produced by GROUPED planning, in closed form. -/
theorem batch_times {α : Type} (posts : List α) (D : ℚ) (B : ℕ) (s : ℚ) :
    (schedule_batch_posts posts D B s).map Prod.snd
      = (List.range posts.length).map
          (fun (i : ℕ) => s
            + batch_interval D (num_batches posts.length B) * ((i / B : ℕ) : ℚ)
            + (2 * ((i % B : ℕ) : ℚ)) / 60) := by
  simp only [schedule_batch_posts]
  exact map_snd_enum_map posts
    (fun (i : ℕ) => s
      + batch_interval D (num_batches posts.length B) * ((i / B : ℕ) : ℚ)
      + (2 * ((i % B : ℕ) : ℚ)) / 60)

/-- C1 counterexample: with 3 posts, duration 10 minutes and start 0,
the SPACED plan does not produce the instants 0, 5, 10 claimed by the
scenario (the code divides by `N`, not `N - 1`). -/
theorem c1_counterexample :
    (schedule_bulk_posts [0, 1, 2] 10 (0 : ℚ)).map Prod.snd ≠ [0, 5, 10] := by
  rw [bulk_times]
  norm_num [bulk_interval, List.range_succ]

/-- C1 (amended): scheduling 3 items in SPACED mode with start `T0`
and total duration 10 minutes produces the instants `T0`,
`T0 + 10/3` min and `T0 + 20/3` min (`interval = 10/3`). -/
theorem c1_spaced_three_posts {α : Type} (posts : List α) (startUtc : ℚ)
    (h : posts.length = 3) :
    (schedule_bulk_posts posts 10 startUtc).map Prod.snd
      = [startUtc, startUtc + 10 / 3, startUtc + 20 / 3] := by
  rw [bulk_times, h]
  norm_num [bulk_interval, List.range_succ]

/-- Witness for `c1_spaced_three_posts` at a concrete 3-item input. -/
theorem c1_spaced_three_posts_witness :
    ([(), (), ()].length = 3)
      ∧ (schedule_bulk_posts [(), (), ()] 10 (0 : ℚ)).map Prod.snd
          = [0, 0 + 10 / 3, 0 + 20 / 3] :=
  ⟨rfl, c1_spaced_three_posts [(), (), ()] 0 rfl⟩

/-- C2 counterexample: with 25 posts, batch size 10, duration 60
minutes and start 0, item 10 (the first item of batch 1) is scheduled
at offset 20 minutes, not at the claimed offset 30 minutes
(`batch_interval = 60 / 3 = 20`, the code divides by `num_batches`,
not `num_batches - 1`). -/
theorem c2_counterexample :
    ((schedule_batch_posts (List.range 25) 60 10 (0 : ℚ)).map Prod.snd).getD 10 0 ≠ 30 := by
  rw [batch_times]
  simp only [List.length_range]
  rw [List.getD_eq_getElem?_getD, List.getElem?_map,
    List.getElem?_range (by norm_num : (10 : ℕ) < 25)]
  norm_num [num_batches, batch_interval]

/-- C2 (amended): scheduling 25 items in GROUPED mode with batch size
10, duration 60 minutes and start `T0` produces
`num_batches = ceil(25/10) = 3` batches whose start offsets from `T0`
are 0, 20 min and 40 min (`batch_interval = 60/3 = 20`); item `i` is
in batch `i / 10` (so items 0–9 are in batch 0, 10–19 in batch 1 and
20–24 in batch 2) and is scheduled at
`T0 + 20 * (i / 10) + 2 seconds * (i % 10)`. -/
theorem c2_grouped_25_10 {α : Type} (posts : List α) (startUtc : ℚ)
    (h : posts.length = 25) :
    num_batches posts.length 10 = 3
      ∧ (schedule_batch_posts posts 60 10 startUtc).map Prod.snd
          = (List.range 25).map
              (fun (i : ℕ) => startUtc + 20 * ((i / 10 : ℕ) : ℚ)
                + (2 * ((i % 10 : ℕ) : ℚ)) / 60)
      ∧ ((schedule_batch_posts posts 60 10 startUtc).map Prod.snd).getD 0 0 = startUtc
      ∧ ((schedule_batch_posts posts 60 10 startUtc).map Prod.snd).getD 10 0 = startUtc + 20
      ∧ ((schedule_batch_posts posts 60 10 startUtc).map Prod.snd).getD 20 0 = startUtc + 40 := by
  have hnb : num_batches 25 10 = 3 := by norm_num [num_batches]
  have hbi : batch_interval 60 (num_batches 25 10) = 20 := by
    rw [hnb]; norm_num [batch_interval]
  have hmap : (schedule_batch_posts posts 60 10 startUtc).map Prod.snd
      = (List.range 25).map
          (fun (i : ℕ) => startUtc + 20 * ((i / 10 : ℕ) : ℚ)
            + (2 * ((i % 10 : ℕ) : ℚ)) / 60) := by
    rw [batch_times, h]
    exact List.map_congr_left (fun i _ => by rw [hbi])
  refine ⟨by rw [h]; exact hnb, hmap, ?_, ?_, ?_⟩
  · rw [hmap, List.getD_eq_getElem?_getD, List.getElem?_map,
      List.getElem?_range (by norm_num : (0:ℕ) < 25)]
    norm_num
  · rw [hmap, List.getD_eq_getElem?_getD, List.getElem?_map,
      List.getElem?_range (by norm_num : (10:ℕ) < 25)]
    norm_num
  · rw [hmap, List.getD_eq_getElem?_getD, List.getElem?_map,
      List.getElem?_range (by norm_num : (20:ℕ) < 25)]
    norm_num

/-- Witness for `c2_grouped_25_10` at a concrete 25-item input. -/
theorem c2_grouped_25_10_witness :
    ((List.range 25).length = 25)
      ∧ (num_batches (List.range 25).length 10 = 3
          ∧ (schedule_batch_posts (List.range 25) 60 10 (0 : ℚ)).map Prod.snd
              = (List.range 25).map
                  (fun (i : ℕ) => 0 + 20 * ((i / 10 : ℕ) : ℚ)
                    + (2 * ((i % 10 : ℕ) : ℚ)) / 60)
          ∧ ((schedule_batch_posts (List.range 25) 60 10 (0 : ℚ)).map Prod.snd).getD 0 0 = 0
          ∧ ((schedule_batch_posts (List.range 25) 60 10 (0 : ℚ)).map Prod.snd).getD 10 0 = 0 + 20
          ∧ ((schedule_batch_posts (List.range 25) 60 10 (0 : ℚ)).map Prod.snd).getD 20 0 = 0 + 40) :=
  ⟨by simp, c2_grouped_25_10 (List.range 25) 0 (by simp)⟩

/-- C3: for every SPACED plan with `N ≥ 1` items and duration `D ≥ 0`:
the interval is `D / N` for `N > 1` and `0` for `N = 1`; item `i` is
scheduled at `start + i * interval`; and the latest scheduled instant
is `start + D * (N - 1) / N` for `N > 1` and `start` for `N = 1`. -/
theorem c3_spaced_plan {α : Type} (posts : List α) (D start : ℚ)
    (hN : 1 ≤ posts.length) (hD : 0 ≤ D) :
    bulk_interval D posts.length
        = (if 1 < posts.length then D / (posts.length : ℚ) else 0)
      ∧ (schedule_bulk_posts posts D start).map Prod.snd
          = (List.range posts.length).map
              (fun (i : ℕ) => start + bulk_interval D posts.length * (i : ℚ))
      ∧ (start + (if posts.length = 1 then 0
            else D * ((posts.length : ℚ) - 1) / (posts.length : ℚ)))
          ∈ (schedule_bulk_posts posts D start).map Prod.snd
      ∧ ∀ t ∈ (schedule_bulk_posts posts D start).map Prod.snd,
          t ≤ start + (if posts.length = 1 then 0
            else D * ((posts.length : ℚ) - 1) / (posts.length : ℚ)) := by
  refine ⟨rfl, bulk_times posts D start, ?_, ?_⟩
  · rw [bulk_times]
    rcases Nat.lt_or_ge 1 posts.length with hgt | hle
    · have hne : posts.length ≠ 1 := by omega
      have hcast : ((posts.length : ℚ)) ≠ 0 := Nat.cast_ne_zero.mpr (by omega)
      simp only [if_neg hne]
      refine List.mem_map.mpr ⟨posts.length - 1, List.mem_range.mpr (by omega), ?_⟩
      have hc : ((posts.length - 1 : ℕ) : ℚ) = (posts.length : ℚ) - 1 := by
        push_cast [Nat.cast_sub hN]
        ring
      rw [hc, bulk_interval, if_pos hgt]
      field_simp
    · have h1 : posts.length = 1 := by omega
      rw [h1]
      simp [bulk_interval]
  · intro t ht
    rw [bulk_times] at ht
    obtain ⟨i, hi, rfl⟩ := List.mem_map.mp ht
    have hi' : i < posts.length := List.mem_range.mp hi
    rcases Nat.lt_or_ge 1 posts.length with hgt | hle
    · have hne : posts.length ≠ 1 := by omega
      have hpos : (0 : ℚ) < (posts.length : ℚ) := by
        exact_mod_cast (show 0 < posts.length by omega)
      simp only [if_neg hne]
      rw [bulk_interval, if_pos hgt]
      have hle2 : (i : ℚ) ≤ (posts.length : ℚ) - 1 := by
        have : (i : ℚ) ≤ ((posts.length - 1 : ℕ) : ℚ) := by exact_mod_cast Nat.le_sub_one_of_lt hi'
        rwa [Nat.cast_sub hN, Nat.cast_one] at this
      have hInonneg : (0 : ℚ) ≤ D / (posts.length : ℚ) := by positivity
      have : D / (posts.length : ℚ) * (i : ℚ)
          ≤ D / (posts.length : ℚ) * ((posts.length : ℚ) - 1) :=
        mul_le_mul_of_nonneg_left hle2 hInonneg
      have heq : D * ((posts.length : ℚ) - 1) / (posts.length : ℚ)
          = D / (posts.length : ℚ) * ((posts.length : ℚ) - 1) := by
        field_simp
      rw [heq]
      linarith
    · have h1 : posts.length = 1 := by omega
      have hi0 : i = 0 := by omega
      rw [h1, hi0]
      simp [bulk_interval]

/-- Witness for `c3_spaced_plan` at 3 items, duration 10, start 0. -/
theorem c3_spaced_plan_witness :
    (1 ≤ ([(), (), ()] : List Unit).length ∧ (0 : ℚ) ≤ 10)
      ∧ (bulk_interval 10 ([(), (), ()] : List Unit).length
            = (if 1 < ([(), (), ()] : List Unit).length
                then 10 / (([(), (), ()] : List Unit).length : ℚ) else 0)
          ∧ (schedule_bulk_posts ([(), (), ()] : List Unit) 10 0).map Prod.snd
              = (List.range ([(), (), ()] : List Unit).length).map
                  (fun (i : ℕ) => 0 + bulk_interval 10 ([(), (), ()] : List Unit).length * (i : ℚ))
          ∧ (0 + (if ([(), (), ()] : List Unit).length = 1 then 0
                else 10 * ((([(), (), ()] : List Unit).length : ℚ) - 1)
                  / (([(), (), ()] : List Unit).length : ℚ)))
              ∈ (schedule_bulk_posts ([(), (), ()] : List Unit) 10 0).map Prod.snd
          ∧ ∀ t ∈ (schedule_bulk_posts ([(), (), ()] : List Unit) 10 0).map Prod.snd,
              t ≤ 0 + (if ([(), (), ()] : List Unit).length = 1 then 0
                else 10 * ((([(), (), ()] : List Unit).length : ℚ) - 1)
                  / (([(), (), ()] : List Unit).length : ℚ))) :=
  ⟨⟨by decide, by norm_num⟩, c3_spaced_plan [(), (), ()] 10 0 (by decide) (by norm_num)⟩

/-- C4: for every GROUPED plan with `N ≥ 1` items, batch size `B ≥ 1`
and duration `D ≥ 0`: `num_batches` is `⌈N/B⌉` (characterized by
`N ≤ num_batches * B < N + B`); item `i` belongs to batch `i / B`,
a valid batch index, and is scheduled at
`start + batch_interval * (i / B) + 2 seconds * (i % B)`; and the
batch start offsets are non-decreasing. -/
theorem c4_grouped_plan {α : Type} (posts : List α) (B : ℕ) (D start : ℚ)
    (hN : 1 ≤ posts.length) (hB : 1 ≤ B) (hD : 0 ≤ D) :
    batch_interval D (num_batches posts.length B)
        = (if 1 < num_batches posts.length B
            then D / ((num_batches posts.length B : ℕ) : ℚ) else 0)
      ∧ posts.length ≤ num_batches posts.length B * B
      ∧ num_batches posts.length B * B < posts.length + B
      ∧ (schedule_batch_posts posts D B start).map Prod.snd
          = (List.range posts.length).map
              (fun (i : ℕ) => start
                + batch_interval D (num_batches posts.length B) * ((i / B : ℕ) : ℚ)
                + (2 * ((i % B : ℕ) : ℚ)) / 60)
      ∧ (∀ i, i < posts.length → i / B < num_batches posts.length B)
      ∧ (∀ b1 b2 : ℕ, b1 ≤ b2 →
          start + batch_interval D (num_batches posts.length B) * (b1 : ℚ)
            ≤ start + batch_interval D (num_batches posts.length B) * (b2 : ℚ)) := by
  have hBpos : 0 < B := hB
  have hceil1 : posts.length ≤ num_batches posts.length B * B := by
    have hdm := Nat.div_add_mod (posts.length + B - 1) B
    have hmod := Nat.mod_lt (posts.length + B - 1) hBpos
    unfold num_batches
    rw [Nat.mul_comm]
    omega
  have hceil2 : num_batches posts.length B * B < posts.length + B := by
    have hdm := Nat.div_add_mod (posts.length + B - 1) B
    have hmod := Nat.mod_lt (posts.length + B - 1) hBpos
    unfold num_batches
    rw [Nat.mul_comm]
    omega
  refine ⟨rfl, hceil1, hceil2, batch_times posts D B start, ?_, ?_⟩
  · intro i hi
    rw [Nat.div_lt_iff_lt_mul hBpos]
    omega
  · intro b1 b2 hb
    have hnonneg : (0 : ℚ) ≤ batch_interval D (num_batches posts.length B) := by
      unfold batch_interval
      split
      · positivity
      · exact le_refl 0
    have : (b1 : ℚ) ≤ (b2 : ℚ) := by exact_mod_cast hb
    have := mul_le_mul_of_nonneg_left this hnonneg
    linarith

/-- Witness for `c4_grouped_plan` at 5 items, batch size 2, duration
10, start 0. -/
theorem c4_grouped_plan_witness :
    (1 ≤ (List.range 5).length ∧ 1 ≤ 2 ∧ (0 : ℚ) ≤ 10)
      ∧ (batch_interval 10 (num_batches (List.range 5).length 2)
            = (if 1 < num_batches (List.range 5).length 2
                then 10 / ((num_batches (List.range 5).length 2 : ℕ) : ℚ) else 0)
          ∧ (List.range 5).length ≤ num_batches (List.range 5).length 2 * 2
          ∧ num_batches (List.range 5).length 2 * 2 < (List.range 5).length + 2
          ∧ (schedule_batch_posts (List.range 5) 10 2 0).map Prod.snd
              = (List.range (List.range 5).length).map
                  (fun (i : ℕ) => 0
                    + batch_interval 10 (num_batches (List.range 5).length 2) * ((i / 2 : ℕ) : ℚ)
                    + (2 * ((i % 2 : ℕ) : ℚ)) / 60)
          ∧ (∀ i, i < (List.range 5).length → i / 2 < num_batches (List.range 5).length 2)
          ∧ (∀ b1 b2 : ℕ, b1 ≤ b2 →
              0 + batch_interval 10 (num_batches (List.range 5).length 2) * (b1 : ℚ)
                ≤ 0 + batch_interval 10 (num_batches (List.range 5).length 2) * (b2 : ℚ))) :=
  ⟨⟨by decide, by decide, by norm_num⟩,
    c4_grouped_plan (List.range 5) 2 10 0 (by decide) (by decide) (by norm_num)⟩

/-! ## Theorems: per-destination retry (C5) -/

/-- C5: for every sequence of per-attempt outcomes, a destination send
makes at most 5 attempts and its waits are always the prefix
`[3, 6, 9, 12].take (attempts - 1)` (so no wait follows the final
attempt and the total backoff never exceeds 30 s); when every attempt
fails retryably the send gives up after exactly 5 attempts and 30 s of
total backoff; when attempt `k` fails terminally after `k` retryable
failures, the send stops at attempt `k + 1` with no further attempt
and no wait after the terminal failure. -/
theorem c5_retry_bound (f : ℕ → SendOutcome) :
    (send_to_channel f).attempts ≤ 5
      ∧ (send_to_channel f).waits = [3, 6, 9, 12].take ((send_to_channel f).attempts - 1)
      ∧ (send_to_channel f).waits.sum ≤ 30
      ∧ ((∀ k, k < 5 → f k = .retryable) →
          (send_to_channel f).ok = false ∧ (send_to_channel f).attempts = 5
            ∧ (send_to_channel f).waits.sum = 30)
      ∧ (∀ k, k < 5 → f k = .terminal → (∀ j, j < k → f j = .retryable) →
          (send_to_channel f).ok = false ∧ (send_to_channel f).attempts = k + 1
            ∧ (send_to_channel f).waits = [3, 6, 9, 12].take k) := by
  refine ⟨?_, ?_, ?_, ?_, ?_⟩
  · rcases h0 : f 0 <;> rcases h1 : f 1 <;> rcases h2 : f 2 <;> rcases h3 : f 3
      <;> rcases h4 : f 4 <;> simp [send_to_channel, sendGo, h0, h1, h2, h3, h4]
  · rcases h0 : f 0 <;> rcases h1 : f 1 <;> rcases h2 : f 2 <;> rcases h3 : f 3
      <;> rcases h4 : f 4 <;> simp [send_to_channel, sendGo, h0, h1, h2, h3, h4]
  · rcases h0 : f 0 <;> rcases h1 : f 1 <;> rcases h2 : f 2 <;> rcases h3 : f 3
      <;> rcases h4 : f 4 <;> simp [send_to_channel, sendGo, h0, h1, h2, h3, h4]
  · intro hall
    have h0 := hall 0 (by omega)
    have h1 := hall 1 (by omega)
    have h2 := hall 2 (by omega)
    have h3 := hall 3 (by omega)
    have h4 := hall 4 (by omega)
    simp [send_to_channel, sendGo, h0, h1, h2, h3, h4]
  · intro k hk hterm hprev
    interval_cases k
    · simp [send_to_channel, sendGo, hterm]
    · have h0 := hprev 0 (by omega)
      simp [send_to_channel, sendGo, h0, hterm]
    · have h0 := hprev 0 (by omega)
      have h1 := hprev 1 (by omega)
      simp [send_to_channel, sendGo, h0, h1, hterm]
    · have h0 := hprev 0 (by omega)
      have h1 := hprev 1 (by omega)
      have h2 := hprev 2 (by omega)
      simp [send_to_channel, sendGo, h0, h1, h2, hterm]
    · have h0 := hprev 0 (by omega)
      have h1 := hprev 1 (by omega)
      have h2 := hprev 2 (by omega)
      have h3 := hprev 3 (by omega)
      simp [send_to_channel, sendGo, h0, h1, h2, h3, hterm]

/-- Witness for `c5_retry_bound`: all-retryable outcomes give 5
attempts and 30 s of backoff; a terminal failure on attempt 2 (after
two retryable failures) stops after 3 attempts with waits `[3, 6]`. -/
theorem c5_retry_bound_witness :
    ((send_to_channel (fun _ => SendOutcome.retryable)).ok = false
        ∧ (send_to_channel (fun _ => SendOutcome.retryable)).attempts = 5
        ∧ (send_to_channel (fun _ => SendOutcome.retryable)).waits.sum = 30)
      ∧ ((send_to_channel
            (fun k => if k < 2 then SendOutcome.retryable else SendOutcome.terminal)).ok = false
        ∧ (send_to_channel
            (fun k => if k < 2 then SendOutcome.retryable else SendOutcome.terminal)).attempts = 2 + 1
        ∧ (send_to_channel
            (fun k => if k < 2 then SendOutcome.retryable else SendOutcome.terminal)).waits
            = [3, 6, 9, 12].take 2) :=
  ⟨(c5_retry_bound (fun _ => SendOutcome.retryable)).2.2.2.1 (fun _ _ => rfl),
    (c5_retry_bound (fun k => if k < 2 then SendOutcome.retryable else SendOutcome.terminal)).2.2.2.2
      2 (by omega) (by simp) (fun j hj => by simp [hj])⟩

/-! ## Theorems: post store queries (C6, C7) -/

/-- C6: the poller's due query returns only PENDING posts (`posted = 0`)
with `scheduled_time ≤ now`, from the store, ordered ascending by
`scheduled_time` and capped at 200 rows; whenever at most 200 rows
qualify it returns all of them; and a DELIVERED post (`posted = 1`) is
never selected by any poll cycle. -/
theorem c6_due_query (posts : List StoredPost) (now : ℤ) :
    (∀ p ∈ process_due_query posts now,
        p.posted = false ∧ p.scheduledTime ≤ now ∧ p ∈ posts)
      ∧ (process_due_query posts now).Pairwise
          (fun a b => a.scheduledTime ≤ b.scheduledTime)
      ∧ (process_due_query posts now).length
          = min (posts.filter (duePred now)).length 200
      ∧ ((posts.filter (duePred now)).length ≤ 200 →
          ∀ p ∈ posts, p.posted = false → p.scheduledTime ≤ now →
            p ∈ process_due_query posts now)
      ∧ (∀ p, p.posted = true → p ∉ process_due_query posts now) := by
  have hmem : ∀ p ∈ process_due_query posts now,
      p.posted = false ∧ p.scheduledTime ≤ now ∧ p ∈ posts := by
    intro p hp
    have hp2 : p ∈ (posts.filter (duePred now)).mergeSort
        (fun a b => decide (a.scheduledTime ≤ b.scheduledTime)) :=
      List.take_subset _ _ hp
    have hp3 : p ∈ posts.filter (duePred now) := List.mem_mergeSort.mp hp2
    have hp4 := List.mem_filter.mp hp3
    have hdp := hp4.2
    simp only [duePred, Bool.and_eq_true, decide_eq_true_eq, Bool.not_eq_true'] at hdp
    exact ⟨hdp.2, hdp.1, hp4.1⟩
  refine ⟨hmem, ?_, ?_, ?_, ?_⟩
  · have hsorted : ((posts.filter (duePred now)).mergeSort
        (fun a b => decide (a.scheduledTime ≤ b.scheduledTime))).Pairwise
        (fun a b => decide (a.scheduledTime ≤ b.scheduledTime) = true) := by
      apply List.sorted_mergeSort
      · intro a b c hab hbc
        simp only [decide_eq_true_eq] at hab hbc ⊢
        omega
      · intro a b
        simp only [Bool.or_eq_true, decide_eq_true_eq]
        omega
    have := hsorted.sublist (List.take_sublist 200 _)
    exact this.imp (fun h => of_decide_eq_true h)
  · rw [process_due_query, List.length_take, List.length_mergeSort, Nat.min_comm]
  · intro hle p hp hpend hsched
    have hfilter : p ∈ posts.filter (duePred now) := by
      rw [List.mem_filter]
      refine ⟨hp, ?_⟩
      simp only [duePred, Bool.and_eq_true, decide_eq_true_eq, Bool.not_eq_true']
      exact ⟨hsched, hpend⟩
    rw [process_due_query,
      List.take_of_length_le (by rw [List.length_mergeSort]; exact hle)]
    exact List.mem_mergeSort.mpr hfilter
  · intro p hposted hp
    have := (hmem p hp).1
    rw [hposted] at this
    cases this

/-- Witness for `c6_due_query`: in a two-post store, the due PENDING
post is selected and the DELIVERED one is not. -/
theorem c6_due_query_witness :
    (([⟨1, false, 50, none, 0, 0⟩, ⟨2, true, 40, some 60, 3, 2⟩]
            : List StoredPost).filter (duePred 100)).length ≤ 200
      ∧ (⟨1, false, 50, none, 0, 0⟩ : StoredPost)
          ∈ ([⟨1, false, 50, none, 0, 0⟩, ⟨2, true, 40, some 60, 3, 2⟩] : List StoredPost)
      ∧ (⟨1, false, 50, none, 0, 0⟩ : StoredPost).posted = false
      ∧ (⟨1, false, 50, none, 0, 0⟩ : StoredPost).scheduledTime ≤ 100
      ∧ (⟨2, true, 40, some 60, 3, 2⟩ : StoredPost).posted = true
      ∧ (⟨1, false, 50, none, 0, 0⟩ : StoredPost)
          ∈ process_due_query
              [⟨1, false, 50, none, 0, 0⟩, ⟨2, true, 40, some 60, 3, 2⟩] 100
      ∧ (⟨2, true, 40, some 60, 3, 2⟩ : StoredPost)
          ∉ process_due_query
              [⟨1, false, 50, none, 0, 0⟩, ⟨2, true, 40, some 60, 3, 2⟩] 100 :=
  ⟨by decide, by decide, by decide, by decide, by decide,
    (c6_due_query [⟨1, false, 50, none, 0, 0⟩, ⟨2, true, 40, some 60, 3, 2⟩] 100).2.2.2.1
      (by decide) _ (by decide) (by decide) (by decide),
    (c6_due_query [⟨1, false, 50, none, 0, 0⟩, ⟨2, true, 40, some 60, 3, 2⟩] 100).2.2.2.2
      _ (by decide)⟩

/-- C7: the retention cleanup (with `cutoff = now - retention`) keeps a
stored post if and only if it is not (DELIVERED with
`posted_at < cutoff`); in particular a PENDING post is never removed,
regardless of its age, and cleanup never adds rows. -/
theorem c7_retention_cleanup (now retention : ℤ) (posts : List StoredPost) :
    (∀ p ∈ posts,
        (p ∈ cleanup_posted_content now retention posts
          ↔ ¬(p.posted = true ∧ ∃ t, p.postedAt = some t ∧ t < now - retention)))
      ∧ (∀ p ∈ posts, p.posted = false → p ∈ cleanup_posted_content now retention posts)
      ∧ (∀ p ∈ cleanup_posted_content now retention posts, p ∈ posts) := by
  have hchar : ∀ p : StoredPost,
      (purgePred (now - retention) p = false
        ↔ ¬(p.posted = true ∧ ∃ t, p.postedAt = some t ∧ t < now - retention)) := by
    intro p
    cases hpa : p.postedAt with
    | none =>
      simp [purgePred, hpa]
    | some t =>
      simp only [purgePred, hpa, Bool.and_eq_false_iff, decide_eq_false_iff_not]
      constructor
      · rintro (hpost | hlt) ⟨hp, t2, ht2, hlt2⟩
        · rw [hp] at hpost; cases hpost
        · cases ht2; exact hlt hlt2
      · intro h
        by_cases hpost : p.posted = true
        · refine Or.inr (fun hlt => h ⟨hpost, t, rfl, hlt⟩)
        · exact Or.inl (by revert hpost; cases p.posted <;> simp)
  refine ⟨?_, ?_, ?_⟩
  · intro p hp
    rw [cleanup_posted_content, List.mem_filter, Bool.not_eq_eq_eq_not, Bool.not_true]
    constructor
    · intro h
      exact (hchar p).mp h.2
    · intro h
      exact ⟨hp, (hchar p).mpr h⟩
  · intro p hp hpend
    rw [cleanup_posted_content, List.mem_filter]
    refine ⟨hp, ?_⟩
    simp [purgePred, hpend]
  · intro p hp
    exact (List.mem_filter.mp hp).1

/-- Witness for `c7_retention_cleanup` (now = 1000, retention = 30):
a post delivered at 900 is removed, one delivered at 990 is kept, and
an ancient PENDING post is kept. -/
theorem c7_retention_cleanup_witness :
    (⟨3, false, 5, none, 0, 0⟩ : StoredPost)
        ∈ ([⟨1, true, 800, some 900, 2, 2⟩, ⟨2, true, 950, some 990, 2, 2⟩,
            ⟨3, false, 5, none, 0, 0⟩] : List StoredPost)
      ∧ (⟨3, false, 5, none, 0, 0⟩ : StoredPost).posted = false
      ∧ (⟨3, false, 5, none, 0, 0⟩ : StoredPost)
          ∈ cleanup_posted_content 1000 30
              [⟨1, true, 800, some 900, 2, 2⟩, ⟨2, true, 950, some 990, 2, 2⟩,
               ⟨3, false, 5, none, 0, 0⟩]
      ∧ (⟨1, true, 800, some 900, 2, 2⟩ : StoredPost)
          ∉ cleanup_posted_content 1000 30
              [⟨1, true, 800, some 900, 2, 2⟩, ⟨2, true, 950, some 990, 2, 2⟩,
               ⟨3, false, 5, none, 0, 0⟩]
      ∧ (⟨2, true, 950, some 990, 2, 2⟩ : StoredPost)
          ∈ cleanup_posted_content 1000 30
              [⟨1, true, 800, some 900, 2, 2⟩, ⟨2, true, 950, some 990, 2, 2⟩,
               ⟨3, false, 5, none, 0, 0⟩] :=
  ⟨by decide, by decide,
    (c7_retention_cleanup 1000 30
        [⟨1, true, 800, some 900, 2, 2⟩, ⟨2, true, 950, some 990, 2, 2⟩,
         ⟨3, false, 5, none, 0, 0⟩]).2.1 _ (by decide) (by decide),
    fun hmem =>
      ((c7_retention_cleanup 1000 30
          [⟨1, true, 800, some 900, 2, 2⟩, ⟨2, true, 950, some 990, 2, 2⟩,
           ⟨3, false, 5, none, 0, 0⟩]).1 _ (by decide)).mp hmem
        ⟨by decide, 900, by decide, by decide⟩,
    ((c7_retention_cleanup 1000 30
        [⟨1, true, 800, some 900, 2, 2⟩, ⟨2, true, 950, some 990, 2, 2⟩,
         ⟨3, false, 5, none, 0, 0⟩]).1 _ (by decide)).mpr
      (fun h => by
        obtain ⟨-, t, ht, hlt⟩ := h
        cases ht
        omega)⟩

/-! ## Theorems: delivered-post invariant (C8) -/

/-- C8 counterexample: the snapshot bound `success_count ≤
destination_count` is not an invariant.  Create a post while no
channel exists (`total_channels = 0`), then add a channel, then
deliver: the delivered post has `successful_posts = 1 >
total_channels = 0`, because the fan-out uses the live channel set,
not the creation-time snapshot. -/
theorem c8_counterexample :
    Reachable (deliver_post (add_channel (schedule_post ⟨[], []⟩ 0) 7) 0 [true] 5)
      ∧ ¬c8ClaimedInvariant (deliver_post (add_channel (schedule_post ⟨[], []⟩ 0) 7) 0 [true] 5) :=
  ⟨Reachable.step
      (Reachable.step
        (Reachable.step Reachable.init (Step.schedulePost ⟨[], []⟩ 0))
        (Step.addChannel (schedule_post ⟨[], []⟩ 0) 7))
      (Step.deliver (add_channel (schedule_post ⟨[], []⟩ 0) 7) 0 [true] 5
        (by decide) (by decide) (by decide)),
    by
      intro h
      exact absurd (h ⟨0, true, 0, some 5, 0, 1⟩ (by decide) rfl).2 (by decide)⟩

/-- C8 (amended): in every reachable state, a DELIVERED post has
`posted_at` set and `successful_posts` bounded by the number of
registered destination rows (channel removal is a soft delete, so
rows are never dropped); the creation-time snapshot `total_channels`
can be exceeded when destinations are added between creation and
delivery. -/
theorem c8_delivered_invariant (s : BotState) (h : Reachable s) :
    ∀ p ∈ s.posts, p.posted = true →
      p.postedAt.isSome = true ∧ p.successfulPosts ≤ s.channels.length := by
  induction h with
  | init =>
    intro p hp
    cases hp
  | step hr hstep ih =>
    rename_i s t
    cases hstep with
    | addChannel cid =>
      intro p hp hposted
      have hlen : s.channels.length ≤ (add_channel s cid).channels.length := by
        rw [add_channel]
        split
        · simp
        · simp
      have hposts : (add_channel s cid).posts = s.posts := by
        rw [add_channel]
        split <;> rfl
      rw [hposts] at hp
      obtain ⟨h1, h2⟩ := ih p hp hposted
      exact ⟨h1, le_trans h2 hlen⟩
    | removeChannel cid =>
      intro p hp hposted
      obtain ⟨h1, h2⟩ := ih p hp hposted
      refine ⟨h1, ?_⟩
      simpa [remove_channel] using h2
    | schedulePost t0 =>
      intro p hp hposted
      rw [schedule_post] at hp
      simp only [List.mem_append, List.mem_singleton] at hp
      rcases hp with hp | hp
      · exact ih p hp hposted
      · rw [hp] at hposted
        cases hposted
    | deliver idx results now hidx hpending hres =>
      intro p hp hposted
      have hp2 := List.mem_or_eq_of_mem_set hp
      rcases hp2 with hp2 | hp2
      · exact ih p hp2 hposted
      · constructor
        · rw [hp2]
          rfl
        · rw [hp2]
          calc results.count true ≤ results.length := List.count_le_length true results
            _ = activeChannelCount s := hres
            _ ≤ s.channels.length := List.length_filter_le _ _

/-- Witness for `c8_delivered_invariant` at a concrete reachable
state containing a delivered post. -/
theorem c8_delivered_invariant_witness :
    Reachable (deliver_post (add_channel (schedule_post ⟨[], []⟩ 0) 7) 0 [true] 5)
      ∧ ∀ p ∈ (deliver_post (add_channel (schedule_post ⟨[], []⟩ 0) 7) 0 [true] 5).posts,
          p.posted = true →
            p.postedAt.isSome = true
              ∧ p.successfulPosts
                  ≤ (deliver_post (add_channel (schedule_post ⟨[], []⟩ 0) 7) 0 [true] 5).channels.length := by
  have hr : Reachable (deliver_post (add_channel (schedule_post ⟨[], []⟩ 0) 7) 0 [true] 5) :=
    Reachable.step
      (Reachable.step
        (Reachable.step Reachable.init (Step.schedulePost ⟨[], []⟩ 0))
        (Step.addChannel (schedule_post ⟨[], []⟩ 0) 7))
      (Step.deliver (add_channel (schedule_post ⟨[], []⟩ 0) 7) 0 [true] 5
        (by decide) (by decide) (by decide))
  exact ⟨hr, c8_delivered_invariant _ hr⟩

/-! ## Theorems: time resolver (C9, C10) -/

/-- C9 (failing input): on the empty input — which is unparseable and
per the claim should fail with `ValueError` — `parse_user_time_input`
instead raises `IndexError`, because `text[-1]` is evaluated before
any emptiness check. -/
theorem c9_empty_input_index_error (nowIst : ℤ) :
    parse_user_time_input nowIst [] = .error .indexError := rfl

/-- A digit character is distinct from any non-digit character. -/
theorem ne_of_digit_of_not_digit {c d : Char} (hc : isDigitChar c = true)
    (hd : isDigitChar d = false) : c ≠ d := by
  intro h
  rw [h, hd] at hc
  cases hc

/-- A digit character is not Python whitespace. -/
theorem isPySpace_eq_false_of_digit {c : Char} (hc : isDigitChar c = true) :
    isPySpace c = false := by
  simp only [isDigitChar, Bool.and_eq_true, decide_eq_true_eq] at hc
  simp only [isPySpace, Bool.or_eq_false_iff, decide_eq_false_iff_not]
  omega

/-- `lower` fixes digit characters. -/
theorem pyLowerChar_eq_self_of_digit {c : Char} (hc : isDigitChar c = true) :
    pyLowerChar c = c := by
  simp only [isDigitChar, Bool.and_eq_true, decide_eq_true_eq] at hc
  rw [pyLowerChar, if_neg]
  omega

/-- `dropWhile` fixes a list whose head fails the predicate. -/
theorem dropWhile_eq_self_of_head {p : Char → Bool} {s : List Char}
    (h : ∀ c, s.head? = some c → p c = false) : s.dropWhile p = s := by
  cases s with
  | nil => rfl
  | cons c cs => simp [List.dropWhile_cons, h c rfl]

/-- The back half of `strip` fixes a list whose last character is not
whitespace. -/
theorem stripBack_eq_self {s : List Char}
    (h : ∀ c, s.getLast? = some c → isPySpace c = false) :
    (s.reverse.dropWhile isPySpace).reverse = s := by
  rw [dropWhile_eq_self_of_head, List.reverse_reverse]
  intro c hc
  rw [List.head?_reverse] at hc
  exact h c hc

/-- `strip` fixes a string with non-whitespace first and last
characters. -/
theorem pyStrip_eq_self {s : List Char}
    (h1 : ∀ c, s.head? = some c → isPySpace c = false)
    (h2 : ∀ c, s.getLast? = some c → isPySpace c = false) : pyStrip s = s := by
  rw [pyStrip, dropWhile_eq_self_of_head h1, stripBack_eq_self h2]

/-- `lower` fixes a string of lower-case-stable characters. -/
theorem pyLower_eq_self {s : List Char} (h : ∀ c ∈ s, pyLowerChar c = c) :
    pyLower s = s :=
  (List.map_congr_left h).trans (List.map_id s)

/-- A pattern whose head character does not occur in `s` is not a
substring of `s`. -/
theorem containsSub_eq_false {p : Char} {ps s : List Char} (h : p ∉ s) :
    containsSub (p :: ps) s = false := by
  induction s with
  | nil => rfl
  | cons c cs ih =>
    have hpc : (p == c) = false :=
      beq_eq_false_iff_ne.mpr (fun he => h (he ▸ List.mem_cons_self c cs))
    have hnotin : p ∉ cs := fun hm => h (List.mem_cons_of_mem c hm)
    rw [containsSub, startsWithL, hpc, Bool.false_and, Bool.false_or]
    exact ih hnotin

/-- `replaceAll` fixes a string not containing the pattern's head
character. -/
theorem replaceAll_of_not_mem {p : Char} {ps s : List Char} (h : p ∉ s) :
    replaceAll (p :: ps) s = s := by
  induction s with
  | nil => rw [replaceAll.eq_def]
  | cons c cs ih =>
    have hpc : (p == c) = false :=
      beq_eq_false_iff_ne.mpr (fun he => h (he ▸ List.mem_cons_self c cs))
    have hnotin : p ∉ cs := fun hm => h (List.mem_cons_of_mem c hm)
    rw [replaceAll.eq_def]
    simp only [startsWithL, hpc, Bool.false_and, false_and, ne_eq, if_false]
    rw [ih hnotin]
    simp

/-- A string starts with itself followed by anything. -/
theorem startsWithL_append (pat rest : List Char) :
    startsWithL pat (pat ++ rest) = true := by
  induction pat with
  | nil => rfl
  | cons p ps ih => simp [startsWithL, ih]

/-- `replaceAll` removes a leading occurrence of the pattern. -/
theorem replaceAll_append {pat rest : List Char} (hne : pat ≠ []) :
    replaceAll pat (pat ++ rest) = replaceAll pat rest := by
  cases pat with
  | nil => cases hne rfl
  | cons p ps =>
    have h1 : startsWithL (p :: ps) (p :: (ps ++ rest)) = true := by
      simpa using startsWithL_append (p :: ps) rest
    rw [replaceAll.eq_def]
    simp only [List.cons_append]
    rw [if_pos ⟨h1, by simp⟩]
    congr 1
    simp only [List.length_cons, List.drop_succ_cons]
    exact List.drop_left ps rest

/-- The last character of `xs ++ ':' :: mm` is `':'` or a character
of `mm`. -/
theorem getLast?_append_colon {xs mm : List Char} {c : Char}
    (hc : (xs ++ ':' :: mm).getLast? = some c) : c = ':' ∨ c ∈ mm := by
  rw [List.getLast?_append] at hc
  cases hmm : (':' :: mm).getLast? with
  | none => rw [List.getLast?_eq_none_iff] at hmm; cases hmm
  | some d =>
    rw [hmm] at hc
    have hcd : c = d := by
      cases hc2 : xs.getLast? <;> rw [hc2] at hc <;> cases hc <;> rfl
    have hd := List.mem_of_getLast?_eq_some hmm
    rcases List.mem_cons.mp hd with hd | hd
    · exact Or.inl (hcd.trans hd)
    · exact Or.inr (hcd ▸ hd)

/-- Any character of `hs ++ ':' :: mm` is in `hs`, is `':'`, or is in
`mm`. -/
theorem mem_append_colon {hs mm : List Char} {c : Char}
    (hc : c ∈ hs ++ ':' :: mm) : c ∈ hs ∨ c = ':' ∨ c ∈ mm := by
  rcases List.mem_append.mp hc with h | h
  · exact Or.inl h
  · rcases List.mem_cons.mp h with h | h
    · exact Or.inr (Or.inl h)
    · exact Or.inr (Or.inr h)

/-- `int()` on a nonempty all-digit string returns its value. -/
theorem pyInt_digits {s : List Char} (hne : s ≠ [])
    (hdig : ∀ c ∈ s, isDigitChar c = true) :
    pyInt s = .ok ((digitVal s : ℤ)) := by
  obtain ⟨c, cs, rfl⟩ : ∃ c cs, s = c :: cs := by
    cases s with
    | nil => cases hne rfl
    | cons a b => exact ⟨a, b, rfl⟩
  have hc := hdig c (List.mem_cons_self c cs)
  have hstrip : pyStrip (c :: cs) = c :: cs :=
    pyStrip_eq_self
      (by
        intro d hd
        cases hd
        exact isPySpace_eq_false_of_digit hc)
      (by
        intro d hd
        exact isPySpace_eq_false_of_digit
          (hdig d (List.mem_of_getLast?_eq_some hd)))
  rw [pyInt, hstrip, pyIntCore]
  rw [if_neg (ne_of_digit_of_not_digit hc (by decide) : c ≠ '+'),
    if_neg (ne_of_digit_of_not_digit hc (by decide) : c ≠ '-'),
    if_pos (List.all_eq_true.mpr hdig)]

/-- `parse_hour` on `H:MM` (digit strings around a colon) returns the
value of the digits before the colon: the minutes are discarded. -/
theorem parse_hour_colon {hs mm : List Char} (hne : hs ≠ [])
    (hhs : ∀ c ∈ hs, isDigitChar c = true) (hmm : ∀ c ∈ mm, isDigitChar c = true) :
    parse_hour (hs ++ ':' :: mm) = .ok ((digitVal hs : ℤ)) := by
  obtain ⟨h0, hs0, rfl⟩ : ∃ h0 hs0, hs = h0 :: hs0 := by
    cases hs with
    | nil => cases hne rfl
    | cons a b => exact ⟨a, b, rfl⟩
  have hh0 := hhs h0 (List.mem_cons_self h0 hs0)
  have hstrip : pyStrip ((h0 :: hs0) ++ ':' :: mm) = (h0 :: hs0) ++ ':' :: mm :=
    pyStrip_eq_self
      (by
        intro d hd
        simp only [List.cons_append, List.head?_cons, Option.some.injEq] at hd
        rw [← hd]
        exact isPySpace_eq_false_of_digit hh0)
      (by
        intro d hd
        rcases getLast?_append_colon hd with rfl | hd2
        · decide
        · exact isPySpace_eq_false_of_digit (hmm d hd2))
  have hlower : pyLower ((h0 :: hs0) ++ ':' :: mm) = (h0 :: hs0) ++ ':' :: mm := by
    apply pyLower_eq_self
    intro c hc
    rcases mem_append_colon hc with hc | rfl | hc
    · exact pyLowerChar_eq_self_of_digit (hhs c hc)
    · decide
    · exact pyLowerChar_eq_self_of_digit (hmm c hc)
  have ham : containsSub ['a', 'm'] ((h0 :: hs0) ++ ':' :: mm) = false := by
    apply containsSub_eq_false
    intro hmem
    rcases mem_append_colon hmem with h | h | h
    · exact absurd rfl (ne_of_digit_of_not_digit (hhs _ h) (by decide))
    · cases h
    · exact absurd rfl (ne_of_digit_of_not_digit (hmm _ h) (by decide))
  have hpm : containsSub ['p', 'm'] ((h0 :: hs0) ++ ':' :: mm) = false := by
    apply containsSub_eq_false
    intro hmem
    rcases mem_append_colon hmem with h | h | h
    · exact absurd rfl (ne_of_digit_of_not_digit (hhs _ h) (by decide))
    · cases h
    · exact absurd rfl (ne_of_digit_of_not_digit (hmm _ h) (by decide))
  have hcol : ((h0 :: hs0) ++ ':' :: mm).contains ':' = true :=
    List.elem_iff.mpr (List.mem_append.mpr (Or.inr (List.mem_cons_self ':' mm)))
  have htw : ((h0 :: hs0) ++ ':' :: mm).takeWhile (fun c => c != ':') = h0 :: hs0 := by
    rw [List.takeWhile_append_of_pos
      (by
        intro a ha
        exact bne_iff_ne.mpr (ne_of_digit_of_not_digit (hhs a ha) (by decide)))]
    simp [List.takeWhile_cons]
  rw [parse_hour, hstrip, hlower, ham, hpm]
  simp only [Bool.or_self, Bool.false_eq_true, if_false, hcol, if_true, htw]
  exact pyInt_digits (by simp) hhs

/-- `parse_user_time_input` on `today H:MM` (digit strings `H`, `MM`)
resolves to today's midnight plus `H` hours: the `:MM` part is
discarded. -/
theorem parse_today_colon (nowIst : ℤ) {hs mm : List Char} (hne : hs ≠ [])
    (hhs : ∀ c ∈ hs, isDigitChar c = true)
    (hmm : ∀ c ∈ mm, isDigitChar c = true) :
    parse_user_time_input nowIst (['t', 'o', 'd', 'a', 'y', ' '] ++ hs ++ ':' :: mm)
      = .ok (1440 * nowIst.fdiv 1440 + 60 * (digitVal hs : ℤ)) := by
  obtain ⟨h0, hs0, rfl⟩ : ∃ h0 hs0, hs = h0 :: hs0 := by
    cases hs with
    | nil => cases hne rfl
    | cons a b => exact ⟨a, b, rfl⟩
  have hh0 := hhs h0 (List.mem_cons_self h0 hs0)
  have hform : ('t' :: 'o' :: 'd' :: 'a' :: 'y' :: ' ' :: ((h0 :: hs0) ++ ':' :: mm))
      = ('t' :: 'o' :: 'd' :: 'a' :: 'y' :: ' ' :: (h0 :: hs0)) ++ ':' :: mm := by
    simp
  have h1 : pyStrip ('t' :: 'o' :: 'd' :: 'a' :: 'y' :: ' ' :: ((h0 :: hs0) ++ ':' :: mm))
      = 't' :: 'o' :: 'd' :: 'a' :: 'y' :: ' ' :: ((h0 :: hs0) ++ ':' :: mm) := by
    apply pyStrip_eq_self
    · intro d hd
      simp only [List.head?_cons, Option.some.injEq] at hd
      rw [← hd]
      decide
    · intro d hd
      rw [hform] at hd
      rcases getLast?_append_colon hd with rfl | hd2
      · decide
      · exact isPySpace_eq_false_of_digit (hmm d hd2)
  have h2 : pyLower ('t' :: 'o' :: 'd' :: 'a' :: 'y' :: ' ' :: ((h0 :: hs0) ++ ':' :: mm))
      = 't' :: 'o' :: 'd' :: 'a' :: 'y' :: ' ' :: ((h0 :: hs0) ++ ':' :: mm) := by
    apply pyLower_eq_self
    intro c hc
    simp only [List.mem_cons] at hc
    rcases hc with rfl | rfl | rfl | rfl | rfl | rfl | hc
    · decide
    · decide
    · decide
    · decide
    · decide
    · decide
    · rcases mem_append_colon hc with h | rfl | h
      · exact pyLowerChar_eq_self_of_digit (hhs c h)
      · decide
      · exact pyLowerChar_eq_self_of_digit (hmm c h)
  obtain ⟨lc, hlc⟩ : ∃ lc,
      ('t' :: 'o' :: 'd' :: 'a' :: 'y' :: ' ' :: ((h0 :: hs0) ++ ':' :: mm)).getLast?
        = some lc := by
    cases hl : ('t' :: 'o' :: 'd' :: 'a' :: 'y' :: ' '
        :: ((h0 :: hs0) ++ ':' :: mm)).getLast? with
    | some lc => exact ⟨lc, rfl⟩
    | none =>
      rw [List.getLast?_eq_none_iff] at hl
      cases hl
  have hlcprop : lc = ':' ∨ lc ∈ mm := by
    rw [hform] at hlc
    exact getLast?_append_colon hlc
  have hlcm : ¬(lc = 'm' ∨ lc = 'h' ∨ lc = 'd') := by
    rcases hlcprop with rfl | h
    · decide
    · have hd := hmm lc h
      rintro (rfl | rfl | rfl) <;> exact absurd hd (by decide)
  have hsw8 : startsWithL ['t', 'o', 'm', 'o', 'r', 'r', 'o', 'w']
      ('t' :: 'o' :: 'd' :: 'a' :: 'y' :: ' ' :: ((h0 :: hs0) ++ ':' :: mm)) = false := by
    simp only [startsWithL]
    rw [(by decide : (('m' : Char) == 'd') = false)]
    simp
  have hsw5 : startsWithL ['t', 'o', 'd', 'a', 'y']
      ('t' :: 'o' :: 'd' :: 'a' :: 'y' :: ' ' :: ((h0 :: hs0) ++ ':' :: mm)) = true := by
    simp [startsWithL]
  have hrepl : replaceAll ['t', 'o', 'd', 'a', 'y']
      ('t' :: 'o' :: 'd' :: 'a' :: 'y' :: ' ' :: ((h0 :: hs0) ++ ':' :: mm))
      = ' ' :: ((h0 :: hs0) ++ ':' :: mm) := by
    have hx : ('t' :: 'o' :: 'd' :: 'a' :: 'y' :: ' ' :: ((h0 :: hs0) ++ ':' :: mm))
        = ['t', 'o', 'd', 'a', 'y'] ++ (' ' :: ((h0 :: hs0) ++ ':' :: mm)) := by
      simp
    rw [hx, replaceAll_append (by simp)]
    apply replaceAll_of_not_mem
    intro hmem
    rcases List.mem_cons.mp hmem with h | h
    · cases h
    · rcases mem_append_colon h with h | h | h
      · exact absurd rfl (ne_of_digit_of_not_digit (hhs _ h) (by decide)).symm
      · cases h
      · exact absurd rfl (ne_of_digit_of_not_digit (hmm _ h) (by decide)).symm
  have hstrip2 : pyStrip (' ' :: ((h0 :: hs0) ++ ':' :: mm)) = (h0 :: hs0) ++ ':' :: mm := by
    have hfront : List.dropWhile isPySpace ((h0 :: hs0) ++ ':' :: mm)
        = (h0 :: hs0) ++ ':' :: mm :=
      dropWhile_eq_self_of_head (fun d hd => by
        simp only [List.cons_append, List.head?_cons, Option.some.injEq] at hd
        rw [← hd]
        exact isPySpace_eq_false_of_digit hh0)
    rw [pyStrip, List.dropWhile_cons, (by decide : isPySpace ' ' = true)]
    simp only [if_true]
    rw [hfront]
    exact stripBack_eq_self (fun d hd => by
      rcases getLast?_append_colon hd with rfl | hd2
      · decide
      · exact isPySpace_eq_false_of_digit (hmm d hd2))
  have hph := parse_hour_colon (List.cons_ne_nil h0 hs0) hhs hmm
  simp only [List.cons_append] at h1 h2 hlc hsw8 hsw5 hrepl hstrip2 hph
  rw [parse_user_time_input]
  simp only [List.cons_append, List.nil_append]
  rw [h1, h2,
    if_neg (fun hx => by injection hx with hx1 hx2; exact absurd hx1 (by decide))]
  split
  · rename_i heq
    rw [heq] at hlc
    cases hlc
  · rename_i lastc heq
    have hinj : lastc = lc := by
      have hx := heq.symm.trans hlc
      injection hx
    subst hinj
    rw [if_neg hlcm, hsw8]
    simp only [Bool.false_eq_true, if_false]
    rw [hsw5, if_pos rfl, hrepl, hstrip2, if_pos (by simp), hph]


/-- `parse_user_time_input` on `tomorrow H:MM` (digit strings `H`,
`MM`) resolves to tomorrow's midnight plus `H` hours: the `:MM` part
is discarded. -/
theorem parse_tomorrow_colon (nowIst : ℤ) {hs mm : List Char} (hne : hs ≠ [])
    (hhs : ∀ c ∈ hs, isDigitChar c = true)
    (hmm : ∀ c ∈ mm, isDigitChar c = true) :
    parse_user_time_input nowIst
        (['t', 'o', 'm', 'o', 'r', 'r', 'o', 'w', ' '] ++ hs ++ ':' :: mm)
      = .ok (1440 * (nowIst + 1440).fdiv 1440 + 60 * (digitVal hs : ℤ)) := by
  obtain ⟨h0, hs0, rfl⟩ : ∃ h0 hs0, hs = h0 :: hs0 := by
    cases hs with
    | nil => cases hne rfl
    | cons a b => exact ⟨a, b, rfl⟩
  have hh0 := hhs h0 (List.mem_cons_self h0 hs0)
  have hform : ('t' :: 'o' :: 'm' :: 'o' :: 'r' :: 'r' :: 'o' :: 'w' :: ' '
        :: ((h0 :: hs0) ++ ':' :: mm))
      = ('t' :: 'o' :: 'm' :: 'o' :: 'r' :: 'r' :: 'o' :: 'w' :: ' '
        :: (h0 :: hs0)) ++ ':' :: mm := by
    simp
  have h1 : pyStrip ('t' :: 'o' :: 'm' :: 'o' :: 'r' :: 'r' :: 'o' :: 'w' :: ' '
        :: ((h0 :: hs0) ++ ':' :: mm))
      = 't' :: 'o' :: 'm' :: 'o' :: 'r' :: 'r' :: 'o' :: 'w' :: ' '
        :: ((h0 :: hs0) ++ ':' :: mm) := by
    apply pyStrip_eq_self
    · intro d hd
      simp only [List.head?_cons, Option.some.injEq] at hd
      rw [← hd]
      decide
    · intro d hd
      rw [hform] at hd
      rcases getLast?_append_colon hd with rfl | hd2
      · decide
      · exact isPySpace_eq_false_of_digit (hmm d hd2)
  have h2 : pyLower ('t' :: 'o' :: 'm' :: 'o' :: 'r' :: 'r' :: 'o' :: 'w' :: ' '
        :: ((h0 :: hs0) ++ ':' :: mm))
      = 't' :: 'o' :: 'm' :: 'o' :: 'r' :: 'r' :: 'o' :: 'w' :: ' '
        :: ((h0 :: hs0) ++ ':' :: mm) := by
    apply pyLower_eq_self
    intro c hc
    simp only [List.mem_cons] at hc
    rcases hc with rfl | rfl | rfl | rfl | rfl | rfl | rfl | rfl | rfl | hc
    · decide
    · decide
    · decide
    · decide
    · decide
    · decide
    · decide
    · decide
    · decide
    · rcases mem_append_colon hc with h | rfl | h
      · exact pyLowerChar_eq_self_of_digit (hhs c h)
      · decide
      · exact pyLowerChar_eq_self_of_digit (hmm c h)
  obtain ⟨lc, hlc⟩ : ∃ lc,
      ('t' :: 'o' :: 'm' :: 'o' :: 'r' :: 'r' :: 'o' :: 'w' :: ' '
        :: ((h0 :: hs0) ++ ':' :: mm)).getLast? = some lc := by
    cases hl : ('t' :: 'o' :: 'm' :: 'o' :: 'r' :: 'r' :: 'o' :: 'w' :: ' '
        :: ((h0 :: hs0) ++ ':' :: mm)).getLast? with
    | some lc => exact ⟨lc, rfl⟩
    | none =>
      rw [List.getLast?_eq_none_iff] at hl
      cases hl
  have hlcprop : lc = ':' ∨ lc ∈ mm := by
    rw [hform] at hlc
    exact getLast?_append_colon hlc
  have hlcm : ¬(lc = 'm' ∨ lc = 'h' ∨ lc = 'd') := by
    rcases hlcprop with rfl | h
    · decide
    · have hd := hmm lc h
      rintro (rfl | rfl | rfl) <;> exact absurd hd (by decide)
  have hsw : startsWithL ['t', 'o', 'm', 'o', 'r', 'r', 'o', 'w']
      ('t' :: 'o' :: 'm' :: 'o' :: 'r' :: 'r' :: 'o' :: 'w' :: ' '
        :: ((h0 :: hs0) ++ ':' :: mm)) = true := by
    simp [startsWithL]
  have hrepl : replaceAll ['t', 'o', 'm', 'o', 'r', 'r', 'o', 'w']
      ('t' :: 'o' :: 'm' :: 'o' :: 'r' :: 'r' :: 'o' :: 'w' :: ' '
        :: ((h0 :: hs0) ++ ':' :: mm))
      = ' ' :: ((h0 :: hs0) ++ ':' :: mm) := by
    have hx : ('t' :: 'o' :: 'm' :: 'o' :: 'r' :: 'r' :: 'o' :: 'w' :: ' '
          :: ((h0 :: hs0) ++ ':' :: mm))
        = ['t', 'o', 'm', 'o', 'r', 'r', 'o', 'w']
            ++ (' ' :: ((h0 :: hs0) ++ ':' :: mm)) := by
      simp
    rw [hx, replaceAll_append (by simp)]
    apply replaceAll_of_not_mem
    intro hmem
    rcases List.mem_cons.mp hmem with h | h
    · cases h
    · rcases mem_append_colon h with h | h | h
      · exact absurd rfl (ne_of_digit_of_not_digit (hhs _ h) (by decide)).symm
      · cases h
      · exact absurd rfl (ne_of_digit_of_not_digit (hmm _ h) (by decide)).symm
  have hstrip2 : pyStrip (' ' :: ((h0 :: hs0) ++ ':' :: mm)) = (h0 :: hs0) ++ ':' :: mm := by
    have hfront : List.dropWhile isPySpace ((h0 :: hs0) ++ ':' :: mm)
        = (h0 :: hs0) ++ ':' :: mm :=
      dropWhile_eq_self_of_head (fun d hd => by
        simp only [List.cons_append, List.head?_cons, Option.some.injEq] at hd
        rw [← hd]
        exact isPySpace_eq_false_of_digit hh0)
    rw [pyStrip, List.dropWhile_cons, (by decide : isPySpace ' ' = true)]
    simp only [if_true]
    rw [hfront]
    exact stripBack_eq_self (fun d hd => by
      rcases getLast?_append_colon hd with rfl | hd2
      · decide
      · exact isPySpace_eq_false_of_digit (hmm d hd2))
  have hph := parse_hour_colon (List.cons_ne_nil h0 hs0) hhs hmm
  simp only [List.cons_append] at h1 h2 hlc hsw hrepl hstrip2 hph
  rw [parse_user_time_input]
  simp only [List.cons_append, List.nil_append]
  rw [h1, h2,
    if_neg (fun hx => by injection hx with hx1 hx2; exact absurd hx1 (by decide))]
  split
  · rename_i heq
    rw [heq] at hlc
    cases hlc
  · rename_i lastc heq
    have hinj : lastc = lc := by
      have hx := heq.symm.trans hlc
      injection hx
    subst hinj
    rw [if_neg hlcm, hsw, if_pos rfl, hrepl, hstrip2, if_pos (by simp), hph]

/-- C10: for inputs `today H:MM` and `tomorrow H:MM` (digit strings
`H` and `MM`, `digitVal H ≤ 23`), `parse_user_time_input` resolves to
the given day's midnight plus `H` hours: the `:MM` part is silently
discarded (`parse_hour` keeps only the digits before the colon), so
the result is on the given day, at hour `H`, with minutes 0. -/
theorem c10_minutes_discarded (nowIst : ℤ) (hs mm : List Char)
    (hne : hs ≠ []) (hhs : ∀ c ∈ hs, isDigitChar c = true)
    (hmmne : mm ≠ []) (hmm : ∀ c ∈ mm, isDigitChar c = true)
    (hle : digitVal hs ≤ 23) :
    parse_user_time_input nowIst (['t', 'o', 'd', 'a', 'y', ' '] ++ hs ++ ':' :: mm)
        = .ok (1440 * nowIst.fdiv 1440 + 60 * (digitVal hs : ℤ))
      ∧ parse_user_time_input nowIst
            (['t', 'o', 'm', 'o', 'r', 'r', 'o', 'w', ' '] ++ hs ++ ':' :: mm)
          = .ok (1440 * (nowIst + 1440).fdiv 1440 + 60 * (digitVal hs : ℤ))
      ∧ (1440 * nowIst.fdiv 1440 + 60 * (digitVal hs : ℤ)) % 60 = 0
      ∧ (1440 * nowIst.fdiv 1440 + 60 * (digitVal hs : ℤ)).fdiv 1440
          = nowIst.fdiv 1440 := by
  refine ⟨parse_today_colon nowIst hne hhs hmm, parse_tomorrow_colon nowIst hne hhs hmm,
    ?_, ?_⟩
  · have : 1440 * nowIst.fdiv 1440 + 60 * (digitVal hs : ℤ)
        = 60 * (24 * nowIst.fdiv 1440 + (digitVal hs : ℤ)) := by ring
    rw [this]
    exact Int.mul_emod_right 60 _
  · have hb : (0 : ℤ) ≤ 1440 := by norm_num
    rw [Int.fdiv_eq_ediv _ hb]
    have hh : (0 : ℤ) ≤ (digitVal hs : ℤ) := Int.natCast_nonneg _
    have hh2 : (digitVal hs : ℤ) ≤ 23 := by exact_mod_cast hle
    omega

/-- Witness for `c10_minutes_discarded`: `today 18:30` resolves to
today's midnight plus 18 hours (minutes discarded), and similarly for
`tomorrow 18:30`. -/
theorem c10_minutes_discarded_witness :
    ((['1', '8'] : List Char) ≠ [] ∧ (∀ c ∈ (['1', '8'] : List Char), isDigitChar c = true)
        ∧ (['3', '0'] : List Char) ≠ [] ∧ (∀ c ∈ (['3', '0'] : List Char), isDigitChar c = true)
        ∧ digitVal ['1', '8'] ≤ 23)
      ∧ (parse_user_time_input 1000000 (['t', 'o', 'd', 'a', 'y', ' '] ++ ['1', '8'] ++ ':' :: ['3', '0'])
            = .ok (1440 * (1000000 : ℤ).fdiv 1440 + 60 * (digitVal ['1', '8'] : ℤ))
          ∧ parse_user_time_input 1000000
                (['t', 'o', 'm', 'o', 'r', 'r', 'o', 'w', ' '] ++ ['1', '8'] ++ ':' :: ['3', '0'])
              = .ok (1440 * ((1000000 : ℤ) + 1440).fdiv 1440 + 60 * (digitVal ['1', '8'] : ℤ))
          ∧ (1440 * (1000000 : ℤ).fdiv 1440 + 60 * (digitVal ['1', '8'] : ℤ)) % 60 = 0
          ∧ (1440 * (1000000 : ℤ).fdiv 1440 + 60 * (digitVal ['1', '8'] : ℤ)).fdiv 1440
              = (1000000 : ℤ).fdiv 1440) :=
  ⟨⟨by decide, by decide, by decide, by decide, by decide⟩,
    c10_minutes_discarded 1000000 ['1', '8'] ['3', '0']
      (by decide) (by decide) (by decide) (by decide) (by decide)⟩

end AutoBot
